import Mathlib

/-!
Verification of the inline-markup parser and field-value dispatcher of
python-word-filler (src/word_filler/__init__.py), shallowly embedded.

The parser (split_text) is modelled as a step automaton over the character
list of the input; the dispatcher (the value setter of ContentControlField)
is modelled as a pure function from a field record and a value string to
either an error or the list of operations it would perform on the external
document targets.
-/

deriving instance DecidableEq for Except

namespace WordFiller

/-- The ContentControlType enumeration of the source. -/
inductive ContentControlType where
  | RichText
  | Text
  | Picture
  | ComboBox
  | DropdownList
  | BuildingBlock
  | Date
  | Group
  | Checkbox
deriving DecidableEq

/-- A format span produced by the parser: tag name, character interval
over the plain output text (half-open, start inclusive and stop exclusive),
and attribute pairs. A stop of -1 is the source's sentinel for a span not
yet closed (Python: Format(tag=tagname, start=text_index, stop=-1, attrs)).
Attributes are the key/value pairs in token order; lookup takes the last
binding, matching Python dict construction where a later duplicate key
overwrites the earlier value. -/
structure Format where
  tag : String
  start : Int
  stop : Int
  attrs : List (String × String)
deriving DecidableEq

/-- The RuntimeError message raised at an unmatched closing tag. The source
string literal lacks the f marker, so the placeholder stays uninterpolated
and the message is this constant, whatever the tag was (line 50 of the
source). -/
def unmatchedMsg : String := "Could not find matching start for {curtag} tag"

/-- Errors raised by the embedded code. The Python source raises RuntimeError
and hits the builtins KeyError and ValueError; each constructor records one
raise site together with the data its message carries. -/
inductive WFError where
  /-- RuntimeError at a closing tag with no entry of matching name
  (split_text, line 50); carries the constant message unmatchedMsg. -/
  | unmatchedTag (msg : String)
  /-- ValueError raised by dict on a sequence element that is not a pair:
  an attribute token whose split on the equals sign does not have exactly
  two parts (split_text, line 53). -/
  | attrValueError (token : String)
  /-- RuntimeError for a span tag that is none of b, i, font; carries the
  tag, the offending span and the original value (value setter, line 94). -/
  | unsupportedTag (tag : String) (fmt : Format) (value : String)
  /-- KeyError from fmt.attrs of a font span without the given key
  (value setter, line 92). -/
  | keyError (key : String)
  /-- ValueError from int() on a size attribute that is not an integer
  literal (value setter, line 92). -/
  | intValueError (s : String)
  /-- RuntimeError for a Patientengeschlecht dropdown value outside m and w;
  carries the field name hard-coded in the message and the value
  (value setter, line 102). -/
  | domainValueError (field : String) (value : String)
  /-- RuntimeError when no dropdown entry text equals the value
  (value setter, line 109). -/
  | noMatchingEntry
  /-- RuntimeError for a field type with no write strategy; carries the
  field name and type (value setter, line 113). -/
  | unsupportedFieldType (name : String) (ftype : ContentControlType)
deriving DecidableEq

/-- Python str.split(sep) for a one-character separator: split on every
occurrence, keeping empty pieces, and yield a single piece for the empty
string. -/
def splitOnChar (sep : Char) : List Char → List (List Char)
  | [] => [[]]
  | c :: cs =>
    let r := splitOnChar sep cs
    if c = sep then [] :: r
    else
      match r with
      | t :: ts => (c :: t) :: ts
      | [] => [[c]]

/-- dict([a.split("=") for a in attrs]) of the source (line 53): each token
must split on the equals sign into exactly two parts, otherwise dict raises
ValueError at the first offending token; the pairs are kept in token
order. -/
def parseAttrs : List (List Char) → Except WFError (List (String × String))
  | [] => .ok []
  | a :: rest =>
    match splitOnChar '=' a with
    | [k, v] =>
      match parseAttrs rest with
      | .ok ps => .ok ((String.mk k, String.mk v) :: ps)
      | .error e => .error e
    | _ => .error (.attrValueError (String.mk a))

/-- The closing-tag search of the source (lines 45-48): walk the tag stack
from the most recently pushed entry backward, and set stop of the first
entry whose tag equals the name to the current plain-text index, leaving
the stack order and all other entries unchanged. The search does not test
whether the entry is still open. Returns none when no entry matches. -/
def closeLast (name : List Char) (idx : Nat) : List Format → Option (List Format)
  | [] => none
  | f :: fs =>
    match closeLast name idx fs with
    | some fs' => some (f :: fs')
    | none =>
      if f.tag = String.mk name then some ({ f with stop := (idx : Int) } :: fs)
      else none

/-- The mutable locals of split_text: output text, current tag buffer, the
tag-capture flag (the boolean role of the variable named tagname), the tag
stack, the plain-text index, and the escape flag. -/
structure SplitState where
  text : List Char
  curtag : List Char
  tagname : Bool
  tag_stack : List Format
  text_index : Nat
  escaped : Bool
deriving DecidableEq

/-- One iteration of the character loop of split_text (lines 36-62), with
the branches in source order: backslash not escaped sets the escape flag;
an unescaped opening angle bracket clears the tag buffer and enters
tag-capture mode; an unescaped closing angle bracket in tag-capture mode
splits the buffer on single spaces into the tag name and attribute tokens,
then either closes the nearest entry of matching name (leading slash) or
pushes a new Format with stop -1; any other character goes to the tag
buffer in tag-capture mode or to the output text otherwise. -/
def splitStep (st : SplitState) (c : Char) : Except WFError SplitState :=
  if c = '\\' ∧ st.escaped = false then
    .ok { st with escaped := true }
  else if c = '<' ∧ st.escaped = false then
    .ok { st with curtag := [], tagname := true }
  else if c = '>' ∧ st.tagname = true ∧ st.escaped = false then
    match splitOnChar ' ' st.curtag with
    | [] => .ok st
    | tn :: attrs =>
      match tn with
      | '/' :: name =>
        match closeLast name st.text_index st.tag_stack with
        | some stk => .ok { st with tag_stack := stk, tagname := false }
        | none => .error (.unmatchedTag unmatchedMsg)
      | _ =>
        match parseAttrs attrs with
        | .ok ps =>
          .ok { st with
                tag_stack := st.tag_stack ++
                  [⟨String.mk tn, (st.text_index : Int), -1, ps⟩],
                tagname := false }
        | .error e => .error e
  else if st.tagname = true then
    .ok { st with curtag := st.curtag ++ [c], escaped := false }
  else
    .ok { st with
          text := st.text ++ [c],
          text_index := st.text_index + 1,
          escaped := false }

/-- Run the loop of split_text over the remaining characters. -/
def splitRun : List Char → SplitState → Except WFError SplitState
  | [], st => .ok st
  | c :: cs, st =>
    match splitStep st c with
    | .ok st' => splitRun cs st'
    | .error e => .error e

/-- The initial locals of split_text (lines 29-35). -/
def initState : SplitState := ⟨[], [], false, [], 0, false⟩

/-- split_text of the source (lines 28-63): run the automaton over the
input and return the accumulated text together with the tag stack, which
holds every opened span in discovery order. -/
def split_text (fmttext : String) : Except WFError (String × List Format) :=
  match splitRun fmttext.data initState with
  | .ok st => .ok (String.mk st.text, st.tag_stack)
  | .error e => .error e

/-- Python dict lookup over the attribute pairs: duplicate keys overwrite,
so the last binding for the key wins; none models KeyError territory. -/
def dictLookup (ps : List (String × String)) (k : String) : Option String :=
  match ps with
  | [] => none
  | (k', v) :: rest =>
    match dictLookup rest k with
    | some v' => some v'
    | none => if k' = k then some v else none

/-- Characters stripped by Python int() around the digits. -/
def pyWhitespace (c : Char) : Bool :=
  c = ' ' ∨ c = '\t' ∨ c = '\n' ∨ c = '\r'

/-- Value of a list of decimal digit characters. -/
def digitsToNat (ds : List Char) : Nat :=
  ds.foldl (fun n c => 10 * n + (c.toNat - Char.toNat '0')) 0

/-- Modelled Python int() on a string as used at line 92: optional
surrounding whitespace, an optional sign, then one or more decimal digits;
anything else raises ValueError (returned as none here). Underscore digit
grouping is not modelled; no claim depends on it. -/
def intParse? (s : String) : Option Int :=
  let cs := ((s.data.dropWhile pyWhitespace).reverse.dropWhile pyWhitespace).reverse
  let signDigits : Int × List Char :=
    match cs with
    | '-' :: rest => (-1, rest)
    | '+' :: rest => (1, rest)
    | rest => (1, rest)
  if signDigits.2 = [] then none
  else if signDigits.2.all Char.isDigit then
    some (signDigits.1 * (digitsToNat signDigits.2 : Int))
  else none

/-- One operation performed on an external document target. So the model
stays observable, the dispatcher returns the list of operations it would
perform instead of mutating host objects. Interval bounds of formatting
operations are offsets relative to the start of the target range, exactly
the fmt.start and fmt.stop added to subrange.start at line 86. The index
of selectEntry is the 1-based position in the target's dropdown entry
list: the spec fixes the meaning of the source's 0-based collection
subscript k as selecting entry k + 1 (spec, sections 4.2 and 6). -/
inductive Op where
  | setText (target : Nat) (text : String)
  | setBold (target : Nat) (start stop : Int)
  | setItalic (target : Nat) (start stop : Int)
  | setFontSize (target : Nat) (size : Int) (start stop : Int)
  | selectEntry (target : Nat) (index : Nat)
deriving DecidableEq

/-- An external target handle: an opaque identity plus, for dropdown
targets, the display texts of its list entries in order. -/
structure Target where
  id : Nat
  entries : List String
deriving DecidableEq

/-- The ContentControlField record of the source: type, name, and the
targets sharing the name (the objs list). The data model of the spec makes
this a 1:n aggregation, n at least one. -/
structure ContentControlField where
  type : ContentControlType
  name : String
  objs : List Target
deriving DecidableEq

/-- Processing of one format span in the rich-text path (lines 85-94):
b sets bold, i sets italic, font reads the size attribute (KeyError when
absent) and parses it as an integer (ValueError when malformed); any other
tag raises the unsupported-tag RuntimeError carrying the tag, the span and
the original value. -/
def applyFormat (tid : Nat) (value : String) (fmt : Format) : Except WFError Op :=
  if fmt.tag = "b" then .ok (.setBold tid fmt.start fmt.stop)
  else if fmt.tag = "i" then .ok (.setItalic tid fmt.start fmt.stop)
  else if fmt.tag = "font" then
    match dictLookup fmt.attrs "size" with
    | none => .error (.keyError "size")
    | some s =>
      match intParse? s with
      | none => .error (.intValueError s)
      | some n => .ok (.setFontSize tid n fmt.start fmt.stop)
  else .error (.unsupportedTag fmt.tag fmt value)

/-- The loop over fmt_controls at lines 84-94, stopping at the first
error. -/
def applyFormats (tid : Nat) (value : String) : List Format → Except WFError (List Op)
  | [] => .ok []
  | f :: fs =>
    match applyFormat tid value f with
    | .ok op =>
      match applyFormats tid value fs with
      | .ok ops => .ok (op :: ops)
      | .error e => .error e
    | .error e => .error e

/-- The linear scan over DropDownListEntries at lines 104-107: first entry
whose display text equals the value, reported as its 1-based position. -/
def findEntry : List String → String → Nat → Option Nat
  | [], _, _ => none
  | e :: rest, text, i => if e = text then some i else findEntry rest text (i + 1)

/-- The body of the value setter for one target (lines 81-113): rich-text
types parse the value, set the text and apply every span; dropdown lists
special-case the field named Patientengeschlecht (m selects entry 2,
w selects entry 1, 1-based, anything else raises the domain RuntimeError)
and otherwise select the first entry equal to the value; Date sets the text
verbatim; every other type raises the unsupported-fieldtype RuntimeError. -/
def applyToObj (ftype : ContentControlType) (fname : String) (text : String)
    (obj : Target) : Except WFError (List Op) :=
  if ftype = .RichText ∨ ftype = .Text ∨ ftype = .ComboBox then
    match split_text text with
    | .ok (validText, fmts) =>
      match applyFormats obj.id text fmts with
      | .ok ops => .ok (.setText obj.id validText :: ops)
      | .error e => .error e
    | .error e => .error e
  else if ftype = .DropdownList then
    if fname = "Patientengeschlecht" then
      if text = "m" then .ok [.selectEntry obj.id 2]
      else if text = "w" then .ok [.selectEntry obj.id 1]
      else .error (.domainValueError "Patientengeschlecht" text)
    else
      match findEntry obj.entries text 1 with
      | some i => .ok [.selectEntry obj.id i]
      | none => .error .noMatchingEntry
  else if ftype = .Date then .ok [.setText obj.id text]
  else .error (.unsupportedFieldType fname ftype)

/-- The loop over self.objs of the value setter (line 80), stopping at the
first failing target. On an error nothing is reported: the selection
branches raise before selecting anything for the failing value. -/
def applyAll (ftype : ContentControlType) (fname : String) (text : String) :
    List Target → Except WFError (List Op)
  | [] => .ok []
  | o :: os =>
    match applyToObj ftype fname text o with
    | .ok ops =>
      match applyAll ftype fname text os with
      | .ok rest => .ok (ops ++ rest)
      | .error e => .error e
    | .error e => .error e

/-- The value setter of ContentControlField (lines 78-113), as the list of
operations applied to its targets in order, or the first error raised. -/
def setValue (field : ContentControlField) (text : String) : Except WFError (List Op) :=
  applyAll field.type field.name text field.objs

/-! ## Helper lemmas -/

/-- Every error of parseAttrs is the attribute ValueError. -/
theorem parseAttrs_error : ∀ (ts : List (List Char)) (e : WFError),
    parseAttrs ts = .error e → ∃ a, e = .attrValueError a := by
  intro ts
  induction ts with
  | nil => intro e h; simp [parseAttrs] at h
  | cons a rest ih =>
    intro e h
    unfold parseAttrs at h
    split at h
    · split at h
      · simp at h
      · rename_i e' he'
        injection h with h1
        subst h1
        exact ih e' he'
    · injection h with h1
      exact ⟨String.mk a, h1.symm⟩

/-- Every error of one parser step is the unmatched-tag RuntimeError or the
attribute ValueError. -/
theorem splitStep_error {st : SplitState} {c : Char} {e : WFError}
    (h : splitStep st c = .error e) :
    e = .unmatchedTag unmatchedMsg ∨ ∃ a, e = .attrValueError a := by
  unfold splitStep at h
  split at h
  · simp at h
  · split at h
    · simp at h
    · split at h
      · split at h
        · simp at h
        · split at h
          · split at h
            · simp at h
            · injection h with h1
              exact Or.inl h1.symm
          · split at h
            · simp at h
            · rename_i e' he'
              injection h with h1
              subst h1
              exact Or.inr (parseAttrs_error _ _ he')
      · split at h
        · simp at h
        · simp at h

/-- Every error of the parser loop is the unmatched-tag RuntimeError or the
attribute ValueError. -/
theorem splitRun_error : ∀ (cs : List Char) (st : SplitState) (e : WFError),
    splitRun cs st = .error e →
    e = .unmatchedTag unmatchedMsg ∨ ∃ a, e = .attrValueError a := by
  intro cs
  induction cs with
  | nil => intro st e h; simp [splitRun] at h
  | cons c cs ih =>
    intro st e h
    unfold splitRun at h
    split at h
    · exact ih _ _ h
    · rename_i e' he'
      injection h with h1
      subst h1
      exact splitStep_error he'

/-- Splitting a list without the separator yields the single whole piece. -/
theorem splitOnChar_not_mem {sep : Char} : ∀ {l : List Char}, sep ∉ l →
    splitOnChar sep l = [l] := by
  intro l
  induction l with
  | nil => intro _; rfl
  | cons c cs ih =>
    intro h
    have hc : ¬ c = sep := fun e => h (e ▸ List.mem_cons_self c cs)
    have hcs : sep ∉ cs := fun m => h (List.mem_cons_of_mem c m)
    simp [splitOnChar, hc, ih hcs]

/-- The closing-tag search fails exactly when no entry on the stack has the
matching name, whether open or closed. -/
theorem closeLast_none_iff (name : List Char) (idx : Nat) :
    ∀ stack : List Format,
      closeLast name idx stack = none ↔ ∀ f ∈ stack, f.tag ≠ String.mk name := by
  intro stack
  induction stack with
  | nil => simp [closeLast]
  | cons g gs ih =>
    cases hrec : closeLast name idx gs with
    | some fs' =>
      have hne : ¬ ∀ f ∈ gs, f.tag ≠ String.mk name := by
        rw [← ih, hrec]; simp
      simp only [closeLast, hrec]
      constructor
      · intro h; simp at h
      · intro h
        exact absurd (fun f hf => h f (List.mem_cons_of_mem g hf)) hne
    | none =>
      have hgs := ih.mp hrec
      simp only [closeLast, hrec]
      by_cases hg : g.tag = String.mk name
      · simp only [hg, if_pos rfl]
        constructor
        · intro h; simp at h
        · intro h
          exact absurd hg (h g (List.mem_cons_self g gs))
      · simp only [if_neg hg]
        constructor
        · intro _ f hf
          rcases List.mem_cons.mp hf with rfl | hf'
          · exact hg
          · exact hgs f hf'
        · intro _; trivial

/-- The closing-tag search sets the stop of the most recently pushed entry
with the matching name and leaves everything else, order included,
unchanged. -/
theorem closeLast_last (name : List Char) (idx : Nat) :
    ∀ (pre : List Format) (f : Format) (post : List Format),
      f.tag = String.mk name → (∀ g ∈ post, g.tag ≠ String.mk name) →
      closeLast name idx (pre ++ f :: post) =
        some (pre ++ { f with stop := (idx : Int) } :: post) := by
  intro pre
  induction pre with
  | nil =>
    intro f post hf hpost
    simp only [List.nil_append]
    unfold closeLast
    rw [(closeLast_none_iff name idx post).mpr hpost]
    simp [hf]
  | cons p pre ih =>
    intro f post hf hpost
    simp only [List.cons_append]
    unfold closeLast
    rw [ih f post hf hpost]

/-- Every span of a stack returned by the closing-tag search is either an
original entry or an original entry with its stop set to the index. -/
theorem closeLast_mem (name : List Char) (idx : Nat) :
    ∀ (stack stk' : List Format), closeLast name idx stack = some stk' →
      ∀ f ∈ stk', f ∈ stack ∨ ∃ g ∈ stack, f = { g with stop := (idx : Int) } := by
  intro stack
  induction stack with
  | nil => intro stk' h; simp [closeLast] at h
  | cons g gs ih =>
    intro stk' h f hf
    unfold closeLast at h
    split at h
    · rename_i fs' hfs'
      injection h with h1
      subst h1
      rcases List.mem_cons.mp hf with rfl | hf'
      · exact Or.inl (List.mem_cons_self f gs)
      · rcases ih fs' hfs' f hf' with h2 | ⟨g', hg', h3⟩
        · exact Or.inl (List.mem_cons_of_mem g h2)
        · exact Or.inr ⟨g', List.mem_cons_of_mem g hg', h3⟩
    · split at h
      · injection h with h1
        subst h1
        rcases List.mem_cons.mp hf with rfl | hf'
        · exact Or.inr ⟨g, List.mem_cons_self g gs, rfl⟩
        · exact Or.inl (List.mem_cons_of_mem g hf')
      · simp at h

/-- The per-span invariant of the parser at output length len: start is a
valid index bound and stop is either the unset sentinel or between start
and len. -/
def SpanInv (len : Nat) (f : Format) : Prop :=
  0 ≤ f.start ∧ f.start ≤ (len : Int) ∧
    (f.stop = -1 ∨ (f.start ≤ f.stop ∧ f.stop ≤ (len : Int)))

/-- The loop invariant of split_text: the plain-text index tracks the
output length and every stacked span satisfies the per-span invariant. -/
def StateInv (st : SplitState) : Prop :=
  st.text_index = st.text.length ∧ ∀ f ∈ st.tag_stack, SpanInv st.text_index f

/-- The per-span invariant is monotone in the length bound. -/
theorem SpanInv.mono {m n : Nat} {f : Format} (h : m ≤ n) (hf : SpanInv m f) :
    SpanInv n f := by
  obtain ⟨h1, h2, h3⟩ := hf
  have hmn : (m : Int) ≤ (n : Int) := Int.ofNat_le.mpr h
  exact ⟨h1, le_trans h2 hmn, by
    rcases h3 with h3 | ⟨h4, h5⟩
    · exact Or.inl h3
    · exact Or.inr ⟨h4, le_trans h5 hmn⟩⟩

/-- One parser step preserves the loop invariant. -/
theorem splitStep_inv {st st' : SplitState} {c : Char}
    (hst : StateInv st) (h : splitStep st c = .ok st') : StateInv st' := by
  obtain ⟨hlen, hspan⟩ := hst
  unfold splitStep at h
  split at h
  · injection h with h1
    subst h1
    exact ⟨hlen, hspan⟩
  · split at h
    · injection h with h1
      subst h1
      exact ⟨hlen, hspan⟩
    · split at h
      · split at h
        · injection h with h1
          subst h1
          exact ⟨hlen, hspan⟩
        · split at h
          · split at h
            · rename_i stk hcl
              injection h with h1
              subst h1
              refine ⟨hlen, ?_⟩
              intro f hf
              rcases closeLast_mem _ _ _ _ hcl f hf with hmem | ⟨g, hg, rfl⟩
              · exact hspan f hmem
              · obtain ⟨h1, h2, _⟩ := hspan g hg
                exact ⟨h1, h2, Or.inr ⟨h2, le_refl _⟩⟩
            · simp at h
          · split at h
            · injection h with h1
              subst h1
              refine ⟨hlen, ?_⟩
              intro f hf
              rcases List.mem_append.mp hf with hmem | hmem
              · exact hspan f hmem
              · rcases List.mem_singleton.mp hmem with rfl
                exact ⟨Int.ofNat_nonneg _, le_refl _, Or.inl rfl⟩
            · simp at h
      · split at h
        · injection h with h1
          subst h1
          exact ⟨hlen, hspan⟩
        · injection h with h1
          subst h1
          refine ⟨by simp [hlen], ?_⟩
          intro f hf
          exact SpanInv.mono (Nat.le_succ _) (hspan f hf)

/-- The parser loop preserves the loop invariant. -/
theorem splitRun_inv : ∀ (cs : List Char) (st st' : SplitState),
    StateInv st → splitRun cs st = .ok st' → StateInv st' := by
  intro cs
  induction cs with
  | nil =>
    intro st st' hst h
    simp [splitRun] at h
    exact h ▸ hst
  | cons c cs ih =>
    intro st st' hst h
    unfold splitRun at h
    split at h
    · rename_i st1 hst1
      exact ih st1 st' (splitStep_inv hst hst1) h
    · simp at h

/-- Splitting never yields the empty list of pieces. -/
theorem splitOnChar_ne_nil (sep : Char) : ∀ l : List Char, splitOnChar sep l ≠ [] := by
  intro l
  induction l with
  | nil => simp [splitOnChar]
  | cons c cs ih =>
    by_cases hc : c = sep
    · simp [splitOnChar, hc]
    · cases hr : splitOnChar sep cs with
      | nil => exact absurd hr ih
      | cons t ts => simp [splitOnChar, hc, hr]

/-- Splitting at a separator occurrence after a separator-free piece peels
off that piece. -/
theorem splitOnChar_append (sep : Char) :
    ∀ (k v : List Char), sep ∉ k →
      splitOnChar sep (k ++ sep :: v) = k :: splitOnChar sep v := by
  intro k
  induction k with
  | nil => intro v _; simp [splitOnChar]
  | cons c cs ih =>
    intro v h
    have hc : ¬ c = sep := fun e => h (e ▸ List.mem_cons_self _ _)
    have hcs : sep ∉ cs := fun m => h (List.mem_cons_of_mem _ m)
    simp [splitOnChar, hc, ih v hcs]

/-- A list containing the separator splits at its first occurrence. -/
theorem mem_split_first {sep : Char} : ∀ {l : List Char}, sep ∈ l →
    ∃ k v, l = k ++ sep :: v ∧ sep ∉ k := by
  intro l
  induction l with
  | nil => intro h; cases h
  | cons c cs ih =>
    intro h
    by_cases hc : c = sep
    · exact ⟨[], cs, by rw [hc]; rfl, by simp⟩
    · have hmem : sep ∈ cs := by
        rcases List.mem_cons.mp h with h1 | h1
        · exact absurd h1.symm hc
        · exact h1
      obtain ⟨k, v, rfl, hk⟩ := ih hmem
      refine ⟨c :: k, v, rfl, ?_⟩
      intro hin
      rcases List.mem_cons.mp hin with h1 | h1
      · exact hc h1.symm
      · exact hk h1

/-- Two decompositions at a separator with separator-free heads agree. -/
theorem append_sep_inj {sep : Char} : ∀ (k k' v v' : List Char),
    k ++ sep :: v = k' ++ sep :: v' → sep ∉ k → sep ∉ k' → k = k' ∧ v = v' := by
  intro k
  induction k with
  | nil =>
    intro k' v v' h hk hk'
    cases k' with
    | nil =>
      simp only [List.nil_append] at h
      exact ⟨rfl, (List.cons.injEq _ _ _ _ ▸ h).2⟩
    | cons c ks =>
      simp only [List.nil_append, List.cons_append] at h
      have hc := (List.cons.injEq _ _ _ _ ▸ h).1
      exact absurd (hc ▸ List.mem_cons_self c ks) hk'
  | cons c ks ih =>
    intro k' v v' h hk hk'
    cases k' with
    | nil =>
      simp only [List.cons_append, List.nil_append] at h
      have hc := (List.cons.injEq _ _ _ _ ▸ h).1
      exact absurd (hc ▸ List.mem_cons_self c ks) hk
    | cons c' ks' =>
      simp only [List.cons_append] at h
      have hc := (List.cons.injEq _ _ _ _ ▸ h).1
      have ht := (List.cons.injEq _ _ _ _ ▸ h).2
      have hks : sep ∉ ks := fun m => hk (List.mem_cons_of_mem _ m)
      have hks' : sep ∉ ks' := fun m => hk' (List.mem_cons_of_mem _ m)
      obtain ⟨h1, h2⟩ := ih ks' v v' ht hks hks'
      exact ⟨by rw [hc, h1], h2⟩

/-- A list containing the separator splits into at least two pieces. -/
theorem splitOnChar_mem_length {sep : Char} {l : List Char} (h : sep ∈ l) :
    2 ≤ (splitOnChar sep l).length := by
  obtain ⟨k, v, rfl, hk⟩ := mem_split_first h
  rw [splitOnChar_append sep k v hk]
  cases hv : splitOnChar sep v with
  | nil => exact absurd hv (splitOnChar_ne_nil sep v)
  | cons t ts => simp

/-! ## Claims -/

/-- Claim C1, counterexample: on an attribute token without an equals sign
the parse fails with the dict ValueError, a failure kind other than the
unmatched-tag error, so split_text is not limited to the unmatched-tag
failure. -/
theorem C1_counterexample :
    split_text "<a b>" = .error (.attrValueError "b") ∧
    WFError.attrValueError "b" ≠ .unmatchedTag unmatchedMsg := by
  exact ⟨rfl, by decide⟩

/-- Claim C1, amended: split_text is total and settles every input either
normally, or with the unmatched-tag RuntimeError, or with the ValueError
raised by dict on an attribute token that does not split into exactly two
parts on the equals sign; no further failure kind occurs. -/
theorem C1_parse_failure_kinds (s : String) :
    (∃ r, split_text s = .ok r) ∨
    split_text s = .error (.unmatchedTag unmatchedMsg) ∨
    (∃ a, split_text s = .error (.attrValueError a)) := by
  cases h : splitRun s.data initState with
  | ok st =>
    refine Or.inl ⟨(String.mk st.text, st.tag_stack), ?_⟩
    simp [split_text, h]
  | error e =>
    rcases splitRun_error _ _ _ h with rfl | ⟨a, rfl⟩
    · exact Or.inr (Or.inl (by simp [split_text, h]))
    · exact Or.inr (Or.inr ⟨a, by simp [split_text, h]⟩)

/-- Claim C7: parsing the nested input yields the plain text X together
with a b span and an i span, both closed, and the half-open interval of
the i span is contained in that of the b span although i closes first. -/
theorem C7_nested_spans :
    ∃ fb fi : Format,
      split_text "<b><i>X</i></b>" = .ok ("X", [fb, fi]) ∧
      fb.tag = "b" ∧ fi.tag = "i" ∧ fb.stop ≠ -1 ∧ fi.stop ≠ -1 ∧
      Set.Ico fi.start fi.stop ⊆ Set.Ico fb.start fb.stop := by
  refine ⟨⟨"b", 0, 1, []⟩, ⟨"i", 0, 1, []⟩, rfl, rfl, rfl, by decide, by decide, ?_⟩
  exact Set.Subset.rfl

/-- Claim C10: an unescaped greater-than character outside tag-capture mode
is emitted into the plain text as an ordinary character and advances the
plain-text index by exactly one, leaving everything else unchanged. -/
theorem C10_plain_gt_emitted (st : SplitState)
    (ht : st.tagname = false) (he : st.escaped = false) :
    splitStep st '>' =
      .ok { st with text := st.text ++ ['>'], text_index := st.text_index + 1 } := by
  obtain ⟨tx, ct, tg, stk, ti, esc⟩ := st
  simp only at ht he
  subst ht
  subst he
  rfl

/-- Claim C10, witness: from the initial state the greater-than character
lands in the output text and the index becomes one. -/
theorem C10_plain_gt_emitted_witness :
    splitStep initState '>' = .ok ⟨['>'], [], false, [], 1, false⟩ :=
  C10_plain_gt_emitted initState rfl rfl

/-- Claim C6: in plain-text position each of the escape pairs backslash
less-than, backslash greater-than and backslash backslash emits exactly
the one literal escaped character, advances the plain-text index by
exactly one, and leaves the escape flag cleared afterwards. -/
theorem C6_escape_sequences (st : SplitState) (c : Char)
    (ht : st.tagname = false) (he : st.escaped = false)
    (hc : c = '<' ∨ c = '>' ∨ c = '\\') :
    splitRun ['\\', c] st =
      .ok { st with text := st.text ++ [c], text_index := st.text_index + 1 } := by
  obtain ⟨tx, ct, tg, stk, ti, esc⟩ := st
  simp only at ht he
  subst ht
  subst he
  rcases hc with rfl | rfl | rfl <;> rfl

/-- Claim C6, witness: from the initial state the pair backslash less-than
yields the single output character less-than at index one. -/
theorem C6_escape_sequences_witness :
    splitRun ['\\', '<'] initState = .ok ⟨['<'], [], false, [], 1, false⟩ :=
  C6_escape_sequences initState '<' rfl rfl (Or.inl rfl)

/-- Claim C2, counterexample: in this input the second closing b tag has no
still-open b entry anywhere on the stack, yet the parse returns normally,
re-closing the already-closed b entry instead of failing with the
unmatched-tag error. -/
theorem C2_counterexample :
    split_text "<b>a</b></b>" = .ok ("a", [⟨"b", 0, 1, []⟩]) := rfl

/-- Claim C2, amended: scanning a closing tag (tag buffer a slash followed
by the name, no spaces) fails with the unmatched-tag RuntimeError, whose
message is the constant string with the uninterpolated placeholder, exactly
when no entry with the matching name, open or already closed, exists
anywhere on the stack; otherwise it sets the stop of the nearest (most
recently pushed) entry with the matching name, whether or not that entry
is already closed, to the current plain-text index, and all entries stay
in the stack in discovery order. -/
theorem C2_close_nearest_match (st : SplitState) (name : List Char)
    (ht : st.tagname = true) (he : st.escaped = false)
    (hc : st.curtag = '/' :: name) (hns : ' ' ∉ st.curtag) :
    (splitStep st '>' = .error (.unmatchedTag unmatchedMsg) ↔
      ∀ f ∈ st.tag_stack, f.tag ≠ String.mk name) ∧
    (∀ (pre : List Format) (f : Format) (post : List Format),
      st.tag_stack = pre ++ f :: post → f.tag = String.mk name →
      (∀ g ∈ post, g.tag ≠ String.mk name) →
      splitStep st '>' = .ok { st with
        tag_stack := pre ++ { f with stop := (st.text_index : Int) } :: post,
        tagname := false }) := by
  have hsplit : splitOnChar ' ' st.curtag = ['/' :: name] := by
    rw [hc]
    exact splitOnChar_not_mem (hc ▸ hns)
  constructor
  · constructor
    · intro h
      rw [← closeLast_none_iff name st.text_index]
      cases hcl : closeLast name st.text_index st.tag_stack with
      | none => rfl
      | some stk =>
        have hok : splitStep st '>' =
            .ok { st with tag_stack := stk, tagname := false } := by
          simp [splitStep, ht, he, hsplit, hcl]
        rw [hok] at h
        simp at h
    · intro h
      have hcl := (closeLast_none_iff name st.text_index st.tag_stack).mpr h
      simp [splitStep, ht, he, hsplit, hcl]
  · intro pre f post hstack hf hpost
    have hcl := closeLast_last name st.text_index pre f post hf hpost
    rw [← hstack] at hcl
    simp [splitStep, ht, he, hsplit, hcl]

/-- Claim C2, amended, witness: with one already-closed b entry on the
stack, a closing b tag at index one re-closes that entry and the step
returns normally. -/
theorem C2_close_nearest_match_witness :
    splitStep ⟨['a'], ['/', 'b'], true, [⟨"b", 0, 0, []⟩], 1, false⟩ '>' =
      .ok ⟨['a'], ['/', 'b'], false, [⟨"b", 0, 1, []⟩], 1, false⟩ := by
  have h := (C2_close_nearest_match
      ⟨['a'], ['/', 'b'], true, [⟨"b", 0, 0, []⟩], 1, false⟩ ['b']
      rfl rfl rfl (by decide)).2
      [] ⟨"b", 0, 0, []⟩ [] rfl rfl (by simp)
  simpa using h

/-- Claim C3, counterexample: a tag left unclosed at end of input is
returned with the unset sentinel stop of minus one although the parse
returns normally. -/
theorem C3_counterexample :
    split_text "<b>x" = .ok ("x", [⟨"b", 0, -1, []⟩]) := rfl

/-- Claim C3, amended: when parse returns normally, every returned span
either carries the unset sentinel stop of minus one — observable, marking
a tag not closed before end of input — or is closed with bounds forming a
valid half-open interval inside the returned text: start at least zero,
start at most stop, stop at most the text length. -/
theorem C3_returned_span_bounds (s t : String) (fs : List Format)
    (h : split_text s = .ok (t, fs)) (f : Format) (hf : f ∈ fs) :
    f.stop = -1 ∨
      (0 ≤ f.start ∧ f.start ≤ f.stop ∧ f.stop ≤ (t.length : Int)) := by
  unfold split_text at h
  split at h
  · rename_i st hrun
    injection h with h1
    have hinv : StateInv st :=
      splitRun_inv s.data initState st
        (show StateInv initState from ⟨rfl, by simp [initState]⟩) hrun
    obtain ⟨hlen, hspan⟩ := hinv
    have ht : String.mk st.text = t := congrArg Prod.fst h1
    have hfs : st.tag_stack = fs := congrArg Prod.snd h1
    subst hfs
    obtain ⟨h1', h2', h3'⟩ := hspan f hf
    have hlt : (t.length : Int) = (st.text_index : Int) := by
      rw [← ht]
      simp [String.length, hlen]
    rcases h3' with h3' | ⟨h4', h5'⟩
    · exact Or.inl h3'
    · exact Or.inr ⟨h1', h4', by rw [hlt]; exact h5'⟩
  · simp at h

/-- Claim C3, amended, witness: the unclosed span returned for an input
ending inside an open b tag carries the sentinel stop. -/
theorem C3_returned_span_bounds_witness :
    (⟨"b", 0, -1, []⟩ : Format).stop = -1 ∨
      (0 ≤ (⟨"b", 0, -1, []⟩ : Format).start ∧
       (⟨"b", 0, -1, []⟩ : Format).start ≤ (⟨"b", 0, -1, []⟩ : Format).stop ∧
       (⟨"b", 0, -1, []⟩ : Format).stop ≤ (("x" : String).length : Int)) :=
  C3_returned_span_bounds "<b>x" "x" [⟨"b", 0, -1, []⟩] rfl
    ⟨"b", 0, -1, []⟩ (by simp)

/-- Claim C4, counterexample: an attribute value containing a further
equals sign does not stay intact in the value part; the token is split on
every equals sign and the parse fails with the dict ValueError. -/
theorem C4_counterexample :
    split_text "<a k=v=w>" = .error (.attrValueError "k=v=w") := rfl

/-- Claim C5, counterexample: the input consisting of one backslash
contains no tag, yet the parse consumes the backslash and returns the
empty text rather than the input unchanged. -/
theorem C5_counterexample :
    ('<' ∉ "\\".data) ∧ split_text "\\" = .ok ("", []) ∧ ("" : String) ≠ "\\" :=
  ⟨by decide, rfl, by decide⟩

/-- Claim C4, amended: an attribute token is split on every equals sign,
not only the first; the split succeeds, yielding the key/value pair as
uninterpreted strings, exactly when the token contains exactly one equals
sign, and any other token — none or several equals signs, so in particular
a value containing a further equals sign — raises the dict ValueError
naming the token. -/
theorem C4_attr_token_split (t : List Char) :
    (∃ k v, t = k ++ '=' :: v ∧ '=' ∉ k ∧ '=' ∉ v ∧
      parseAttrs [t] = .ok [(String.mk k, String.mk v)]) ∨
    ((¬ ∃ k v, t = k ++ '=' :: v ∧ '=' ∉ k ∧ '=' ∉ v) ∧
      parseAttrs [t] = .error (.attrValueError (String.mk t))) := by
  by_cases hm : '=' ∈ t
  · obtain ⟨k, v, rfl, hk⟩ := mem_split_first hm
    by_cases hv : '=' ∈ v
    · right
      constructor
      · rintro ⟨k', v', he, hk', hv'⟩
        obtain ⟨rfl, rfl⟩ := append_sep_inj k k' v v' he hk hk'
        exact hv' hv
      · have h1 := splitOnChar_append '=' k v hk
        have h2 := splitOnChar_mem_length hv
        unfold parseAttrs
        rw [h1]
        cases hsv : splitOnChar '=' v with
        | nil => exact absurd hsv (splitOnChar_ne_nil '=' v)
        | cons a as =>
          cases as with
          | nil => rw [hsv] at h2; simp at h2
          | cons b bs => simp
    · left
      refine ⟨k, v, rfl, hk, hv, ?_⟩
      have h1 := splitOnChar_append '=' k v hk
      have h2 := splitOnChar_not_mem hv
      unfold parseAttrs
      rw [h1, h2]
      simp [parseAttrs]
  · right
    constructor
    · rintro ⟨k, v, rfl, hk, hv⟩
      exact hm (by simp)
    · have h1 := splitOnChar_not_mem hm
      unfold parseAttrs
      rw [h1]

/-- A run over characters that are neither the opening angle bracket nor
the backslash, outside tag-capture mode with the escape flag clear, copies
them all to the output and advances the index by their number. -/
theorem splitRun_plain : ∀ (cs : List Char) (st : SplitState),
    (∀ c ∈ cs, c ≠ '<' ∧ c ≠ '\\') → st.tagname = false → st.escaped = false →
    splitRun cs st =
      .ok { st with text := st.text ++ cs, text_index := st.text_index + cs.length } := by
  intro cs
  induction cs with
  | nil => intro st _ _ _; simp [splitRun]
  | cons c cs ih =>
    intro st hcs ht he
    obtain ⟨hc1, hc2⟩ := hcs c (List.mem_cons_self c cs)
    obtain ⟨tx, ct, tg, stk, ti, esc⟩ := st
    simp only at ht he
    subst ht
    subst he
    have hstep : splitStep ⟨tx, ct, false, stk, ti, false⟩ c =
        .ok ⟨tx ++ [c], ct, false, stk, ti + 1, false⟩ := by
      simp [splitStep, hc1, hc2]
    rw [splitRun, hstep]
    dsimp only
    rw [ih ⟨tx ++ [c], ct, false, stk, ti + 1, false⟩
      (fun d hd => hcs d (List.mem_cons_of_mem c hd)) rfl rfl]
    simp [List.append_assoc]
    omega

/-- Claim C5, amended: for every input containing neither the opening angle
bracket nor the backslash — no tags and no escapes — parse returns the
input unchanged as the plain text with an empty span list; in particular
the empty input yields the empty text and the empty span list. -/
theorem C5_plain_input_unchanged (s : String)
    (h1 : '<' ∉ s.data) (h2 : '\\' ∉ s.data) :
    split_text s = .ok (s, []) := by
  obtain ⟨data⟩ := s
  have h := splitRun_plain data initState
    (fun c hc => ⟨fun e => h1 (e ▸ hc), fun e => h2 (e ▸ hc)⟩) rfl rfl
  have h' : splitRun data ⟨[], [], false, [], 0, false⟩ =
      .ok ⟨data, [], false, [], 0 + data.length, false⟩ := h
  simp [split_text, initState, h']

/-- Claim C5, amended, witness: an input with a bare greater-than character
but no opening bracket and no backslash comes back unchanged with no
spans. -/
theorem C5_plain_input_unchanged_witness :
    ('<' ∉ "a>b".data) ∧ ('\\' ∉ "a>b".data) ∧ split_text "a>b" = .ok ("a>b", []) :=
  ⟨by decide, by decide, C5_plain_input_unchanged "a>b" (by decide) (by decide)⟩

/-- Claim C8, counterexample: the parse of this value yields a span with
the unsupported tag u, yet applying it to a rich-text field fails with the
KeyError of the preceding font span without a size attribute, not with the
unsupported-tag error. -/
theorem C8_counterexample :
    setValue ⟨.RichText, "f", [⟨1, []⟩]⟩ "<font>a</font><u>x</u>" =
      .error (.keyError "size") ∧
    WFError.keyError "size" ≠
      .unsupportedTag "u" ⟨"u", 1, 2, []⟩ "<font>a</font><u>x</u>" :=
  ⟨rfl, by decide⟩

/-- A span whose tag is b, or i, or font with an integer-parsable size
attribute, is processed without error. -/
theorem applyFormat_ok_of_supported (tid : Nat) (value : String) (g : Format)
    (hg : g.tag = "b" ∨ g.tag = "i" ∨
      (g.tag = "font" ∧ ∃ s n, dictLookup g.attrs "size" = some s ∧
        intParse? s = some n)) :
    ∃ op, applyFormat tid value g = .ok op := by
  rcases hg with h | h | ⟨h, s, n, hs, hn⟩
  · exact ⟨.setBold tid g.start g.stop, by simp [applyFormat, h]⟩
  · exact ⟨.setItalic tid g.start g.stop, by simp [applyFormat, h]⟩
  · exact ⟨.setFontSize tid n g.start g.stop, by simp [applyFormat, h, hs, hn]⟩

/-- Processing spans stops with the error of the first failing span when
all spans before it succeed. -/
theorem applyFormats_append_error (tid : Nat) (value : String) :
    ∀ (pre : List Format) (f : Format) (post : List Format) (e : WFError),
      (∀ g ∈ pre, ∃ op, applyFormat tid value g = .ok op) →
      applyFormat tid value f = .error e →
      applyFormats tid value (pre ++ f :: post) = .error e := by
  intro pre
  induction pre with
  | nil => intro f post e _ hf; simp [applyFormats, hf]
  | cons g gs ih =>
    intro f post e hpre hf
    obtain ⟨op, hop⟩ := hpre g (List.mem_cons_self g gs)
    have hrest := ih f post e (fun g' h' => hpre g' (List.mem_cons_of_mem g h')) hf
    simp [applyFormats, hop, hrest]

/-- Claim C8, amended: for a field of type RichText, Text or ComboBox with
at least one target (the data model makes the aggregation 1:n, n at least
one), applying a value whose parse succeeds and yields a span with a tag
other than b, i and font fails with the unsupported-tag RuntimeError
naming that tag, the offending span and the original value — provided
every font span before the offending span carries an integer-parsable size
attribute; otherwise the font span fails first with its KeyError or
ValueError instead. -/
theorem C8_unsupported_tag_error (field : ContentControlField)
    (value txt : String) (fmts pre post : List Format) (f : Format)
    (o : Target) (os : List Target)
    (htype : field.type = .RichText ∨ field.type = .Text ∨ field.type = .ComboBox)
    (hobjs : field.objs = o :: os)
    (hparse : split_text value = .ok (txt, fmts))
    (hsplit : fmts = pre ++ f :: post)
    (hbad : f.tag ≠ "b" ∧ f.tag ≠ "i" ∧ f.tag ≠ "font")
    (hpre : ∀ g ∈ pre, g.tag = "b" ∨ g.tag = "i" ∨
      (g.tag = "font" ∧ ∃ s n, dictLookup g.attrs "size" = some s ∧
        intParse? s = some n)) :
    setValue field value = .error (.unsupportedTag f.tag f value) := by
  have hf : applyFormat o.id value f = .error (.unsupportedTag f.tag f value) := by
    simp [applyFormat, hbad.1, hbad.2.1, hbad.2.2]
  have hfs : applyFormats o.id value fmts = .error (.unsupportedTag f.tag f value) := by
    rw [hsplit]
    exact applyFormats_append_error o.id value pre f post _
      (fun g hg => applyFormat_ok_of_supported o.id value g (hpre g hg)) hf
  have hobj : applyToObj field.type field.name value o =
      .error (.unsupportedTag f.tag f value) := by
    unfold applyToObj
    rw [if_pos htype, hparse]
    simp [hfs]
  unfold setValue
  rw [hobjs]
  unfold applyAll
  simp [hobj]

/-- Claim C8, amended, witness: the scenario of the spec, a rich-text field
receiving the unsupported u tag, fails naming the tag, the span and the
value. -/
theorem C8_unsupported_tag_error_witness :
    setValue ⟨.RichText, "f", [⟨1, []⟩]⟩ "<u>x</u>" =
      .error (.unsupportedTag "u" ⟨"u", 0, 1, []⟩ "<u>x</u>") :=
  C8_unsupported_tag_error ⟨.RichText, "f", [⟨1, []⟩]⟩ "<u>x</u>" "x"
    [⟨"u", 0, 1, []⟩] [] [] ⟨"u", 0, 1, []⟩ ⟨1, []⟩ []
    (Or.inl rfl) rfl rfl rfl (by decide) (by simp)

/-- Applying the value m to Patientengeschlecht dropdown targets selects
1-based entry two on every target. -/
theorem applyAll_patient_m (os : List Target) :
    applyAll .DropdownList "Patientengeschlecht" "m" os =
      .ok (os.map fun o => .selectEntry o.id 2) := by
  induction os with
  | nil => rfl
  | cons o os ih => simp [applyAll, applyToObj, ih]

/-- Applying the value w to Patientengeschlecht dropdown targets selects
1-based entry one on every target. -/
theorem applyAll_patient_w (os : List Target) :
    applyAll .DropdownList "Patientengeschlecht" "w" os =
      .ok (os.map fun o => .selectEntry o.id 1) := by
  induction os with
  | nil => rfl
  | cons o os ih => simp [applyAll, applyToObj, ih]

/-- Applying any value outside m and w to a nonempty Patientengeschlecht
target list fails at the first target with the domain RuntimeError, before
any entry is selected. -/
theorem applyAll_patient_bad (value : String) (h1 : value ≠ "m") (h2 : value ≠ "w")
    (o : Target) (os : List Target) :
    applyAll .DropdownList "Patientengeschlecht" value (o :: os) =
      .error (.domainValueError "Patientengeschlecht" value) := by
  simp [applyAll, applyToObj, h1, h2]

/-- Claim C9: on a DropdownList field named Patientengeschlecht with at
least one target, the value m selects entry index two (1-based) on every
target, the value w selects entry index one, and any other value fails
with the domain RuntimeError naming the field, with no entry selected. -/
theorem C9_patientengeschlecht (field : ContentControlField) (value : String)
    (htype : field.type = .DropdownList)
    (hname : field.name = "Patientengeschlecht")
    (hobjs : field.objs ≠ []) :
    (value = "m" → setValue field value =
      .ok (field.objs.map fun o => .selectEntry o.id 2)) ∧
    (value = "w" → setValue field value =
      .ok (field.objs.map fun o => .selectEntry o.id 1)) ∧
    (value ≠ "m" → value ≠ "w" → setValue field value =
      .error (.domainValueError "Patientengeschlecht" value)) := by
  refine ⟨?_, ?_, ?_⟩
  · rintro rfl
    unfold setValue
    rw [htype, hname]
    exact applyAll_patient_m field.objs
  · rintro rfl
    unfold setValue
    rw [htype, hname]
    exact applyAll_patient_w field.objs
  · intro h1 h2
    obtain ⟨o, os, hcons⟩ := List.exists_cons_of_ne_nil hobjs
    unfold setValue
    rw [htype, hname, hcons]
    exact applyAll_patient_bad value h1 h2 o os

/-- Claim C9, witness: on a concrete one-target Patientengeschlecht
dropdown field, m selects entry two, w selects entry one, and x fails with
the domain error naming the field. -/
theorem C9_patientengeschlecht_witness :
    setValue ⟨.DropdownList, "Patientengeschlecht", [⟨5, []⟩]⟩ "m" =
      .ok [.selectEntry 5 2] ∧
    setValue ⟨.DropdownList, "Patientengeschlecht", [⟨5, []⟩]⟩ "w" =
      .ok [.selectEntry 5 1] ∧
    setValue ⟨.DropdownList, "Patientengeschlecht", [⟨5, []⟩]⟩ "x" =
      .error (.domainValueError "Patientengeschlecht" "x") := by
  refine ⟨?_, ?_, ?_⟩
  · exact (C9_patientengeschlecht ⟨.DropdownList, "Patientengeschlecht", [⟨5, []⟩]⟩
      "m" rfl rfl (by simp)).1 rfl
  · exact (C9_patientengeschlecht ⟨.DropdownList, "Patientengeschlecht", [⟨5, []⟩]⟩
      "w" rfl rfl (by simp)).2.1 rfl
  · exact (C9_patientengeschlecht ⟨.DropdownList, "Patientengeschlecht", [⟨5, []⟩]⟩
      "x" rfl rfl (by simp)).2.2 (by decide) (by decide)

end WordFiller
